import Mathlib

/-! BeanCounter: the balance ledger (`beancount/db.go`) and its router (`main.go`).

The ledger keeps one row per chat in the DynamoDB table `BeanCount`.  The Go
functions send `GetItem`, `UpdateItem` and `PutItem` requests; here each
request is a pure function on an explicit table state, and whether a request
reaches the table is an explicit boolean input of the function that sends it.
Go's `(value, error)` returns are pairs whose second component is
`Option StoreError`; a run-time panic is the constructor `GoResult.panic`.
-/

namespace BeanCounter

/-! ## Numbers of the table -/

/-- Value of one decimal digit character. -/
def digitVal (c : Char) : Option Nat :=
  if c.isDigit then some (c.toNat - 48) else none

/-- Value of a run of decimal digits, read left to right from `acc`. -/
def digitsVal : Nat → List Char → Option Nat
  | acc, [] => some acc
  | acc, c :: cs =>
    match digitVal c with
    | some d => digitsVal (10 * acc + d) cs
    | none => none

/-- Unsigned decimal `digits [. digits]` with at least one digit, as the pair
of its digits read as one natural number and the count of fraction digits. -/
def parseUnsigned (cs : List Char) : Option (Nat × Nat) :=
  let ip := cs.takeWhile (fun c => c != '.')
  let fp := (cs.dropWhile (fun c => c != '.')).drop 1
  if (ip ++ fp).isEmpty then none
  else
    match digitsVal 0 (ip ++ fp) with
    | some m => some (m, fp.length)
    | none => none

/-- Signed decimal: mantissa and count of fraction digits.  An optional
leading `-` or `+` is followed by an unsigned decimal. -/
def parseDecimal (s : String) : Option (Int × Nat) :=
  match s.data with
  | '-' :: cs => (parseUnsigned cs).map (fun p => (-(p.1 : Int), p.2))
  | '+' :: cs => (parseUnsigned cs).map (fun p => ((p.1 : Int), p.2))
  | cs => (parseUnsigned cs).map (fun p => ((p.1 : Int), p.2))

/-- Exact value of a mantissa with `k` fraction digits. -/
def decValue (p : Int × Nat) : ℚ := (p.1 : ℚ) / (10 : ℚ) ^ p.2

/-- Number syntax of the table's `N` attribute type, with the exact value of
the number.  `none` is the table's validation error for a string that is not
a number. -/
def parseNumber (s : String) : Option ℚ := (parseDecimal s).map decValue

/-- Exact value of an amount string (`0` for a string that is no number;
every use is guarded by `parseNumber`). -/
def numVal (s : String) : ℚ := (parseNumber s).getD 0

/-- Least count of fraction digits with which `q` can be written. -/
def decScale (q : ℚ) : Nat :=
  ((List.range (q.den + 1)).find? (fun k => 10 ^ k % q.den == 0)).getD 0

/-- Decimal digits of a natural number, most significant first. -/
def natDigits (n : Nat) : List Char :=
  ((Nat.digits 10 n).reverse).map (fun d => Char.ofNat (48 + d))

/-- Digits of the natural number `m` written with `k` fraction digits: at
least one integer digit, then, when `k > 0`, a point and `k` digits. -/
def unsignedChars (m k : Nat) : List Char :=
  let ds := List.replicate (k + 1 - (natDigits m).length) '0' ++ natDigits m
  ds.take (ds.length - k) ++ (if k = 0 then [] else '.' :: ds.drop (ds.length - k))

/-- String the table returns for a number: sign, integer digits and, when the
value is not an integer, a point and the fraction digits, without trailing
zeros. -/
def renderNumber (q : ℚ) : String :=
  String.mk ((if q < 0 then ['-'] else []) ++
    unsignedChars (q.num.natAbs * (10 ^ decScale q / q.den)) (decScale q))

/-- A rational number is a decimal when a power of ten clears its
denominator. -/
def IsDecimal (q : ℚ) : Prop := ∃ k : Nat, q.den ∣ 10 ^ k

/-! ## The table -/

/-- Entry represents a single transaction (`db.go:19-23`). -/
structure Entry where
  Timestamp : Int
  Amount : String
deriving DecidableEq, Repr

/-- Account contains the ChatID the bot relates to and the balance
(`db.go:12-17`); `Balance` is the string of the number attribute. -/
structure Account where
  ChatID : Int
  Balance : String
  Hist : List Entry
deriving DecidableEq, Repr

/-- Item of table `BeanCount` as the program writes it: a number attribute
`Balance` and a list attribute `Hist`, under the key `ChatID`. -/
structure Row where
  Balance : ℚ
  Hist : List Entry

/-- Table `BeanCount`: at most one item per `ChatID`. -/
abbrev Table := Int → Option Row

/-- Errors of a request to the table. -/
inductive StoreError where
  | unavailable
  | validation
  | conditionalCheckFailed
deriving DecidableEq, Repr

/-- Outcome of a Go call that may panic instead of returning. -/
inductive GoResult (α : Type) where
  | ret (v : α)
  | panic
deriving DecidableEq, Repr

/-- Request `GetItem` on the key `ChatID = key`: the item, or no item when
there is none (which is not an error).  Here and below `up = false` is a
request that fails for a reason outside this model (the table is not
reached, the request is throttled, a size or precision limit of the service
is exceeded); with `up = true` the request is decided by the item and the
arguments alone. -/
def getItem (up : Bool) (db : Table) (key : Int) : Except StoreError (Option Row) :=
  if up then .ok (db key) else .error .unavailable

/-- Decoding of a `GetItem` result into `var acc Account`
(`dynamodbattribute.UnmarshalMap`, `db.go:45-46`): attributes that are
present are copied, a number into the string field as the string the table
returns for it, and an absent item leaves every field at its zero value.
Decoding an item that this program wrote does not fail. -/
def unmarshalAccount (key : Int) : Option Row → Account
  | some r => { ChatID := key, Balance := renderNumber r.Balance, Hist := r.Hist }
  | none => { ChatID := 0, Balance := "", Hist := [] }

/-- Attributes of an `UpdateItem` response that the program reads:
`Attributes["Balance"].N`, a nil pointer when the attribute is not returned. -/
structure UpdateItemOutput where
  Balance : Option String
deriving DecidableEq, Repr

/-- First request of `UpdateBalance` (`db.go:64-87`):
`SET Balance = Balance + :amount, Hist = list_append(Hist, :entry)` with
`ReturnValues = UPDATED_NEW`.  The expression reads `Balance` and `Hist`, so
it is rejected when the item (hence the attributes) does not exist, and
`:amount` must be a number.  `Send` returns a nil response with the error, or
the response with a nil error; the table changes only on success. -/
def sendAdd (up : Bool) (db : Table) (key : Int) (amount : String) (entry : Entry) :
    (Option UpdateItemOutput × Option StoreError) × Table :=
  if up then
    match db key, parseNumber amount with
    | some r, some a =>
      let r1 : Row := { Balance := r.Balance + a, Hist := r.Hist ++ [entry] }
      ((some { Balance := some (renderNumber r1.Balance) }, none), Function.update db key (some r1))
    | _, _ => ((none, some .validation), db)
  else ((none, some .unavailable), db)

/-- Second request of `UpdateBalance` (`db.go:94-111`): `REMOVE Hist[0]` under
the condition `size (Hist) > :maxLen` with `:maxLen = 10` and
`ReturnValues = NONE`. -/
def sendTrim (up : Bool) (db : Table) (key : Int) :
    (Option UpdateItemOutput × Option StoreError) × Table :=
  if up then
    match db key with
    | some r =>
      if r.Hist.length > 10 then
        ((some { Balance := none }, none),
          Function.update db key (some { Balance := r.Balance, Hist := r.Hist.drop 1 }))
      else ((none, some .conditionalCheckFailed), db)
    | none => ((none, some .conditionalCheckFailed), db)
  else ((none, some .unavailable), db)

/-- Request `PutItem` of `ResetBalance` (`db.go:118-134`): the item
`ChatID = key, Balance = newBal, Hist = []` replaces any item with that key;
`newBal` must be a number. -/
def sendPut (up : Bool) (db : Table) (key : Int) (newBal : String) :
    Option StoreError × Table :=
  if up then
    match parseNumber newBal with
    | some v => (none, Function.update db key (some { Balance := v, Hist := [] }))
    | none => (some .validation, db)
  else (some .unavailable, db)

/-! ## `beancount/db.go` -/

/-- GetBalance returns the stored balance of the provided chat
(`db.go:30-51`). -/
def GetBalance (up : Bool) (db : Table) (key : Int) : String × Option StoreError :=
  match getItem up db key with
  | .error err => ("0", some err)
  | .ok item =>
    let acc := unmarshalAccount key item
    (acc.Balance, none)

/-- UpdateBalance sums up the amount provided to the balance and records it
in history (`db.go:53-114`).  `now` is `time.Now().Unix()`; `addUp` and
`trimUp` are the `up` inputs of the first and the second request.
`MarshalMap` of an `Entry` (lines 60-63) does not fail.  Line 89 reads
`*res.Attributes["Balance"].N` before line 90 tests `err`: a nil response,
or a response without the attribute, is a nil dereference.  The result of
the second request is dropped (line 111). -/
def UpdateBalance (addUp trimUp : Bool) (now : Int) (db : Table) (key : Int) (amount : String) :
    GoResult (String × Option StoreError) × Table :=
  let entry : Entry := { Amount := amount, Timestamp := now }
  match sendAdd addUp db key amount entry with
  | ((res, err), db1) =>
    match res.bind (fun r => r.Balance) with
    | none => (.panic, db1)
    | some resVal =>
      match err with
      | some e => (.ret ("", some e), db1)
      | none =>
        match sendTrim trimUp db1 key with
        | (_, db2) => (.ret (resVal, err), db2)

/-- ResetBalance resets the balance to `newBal` (`db.go:116-139`). -/
def ResetBalance (up : Bool) (db : Table) (key : Int) (newBal : String) :
    Option StoreError × Table :=
  match sendPut up db key newBal with
  | (some err, db1) => (some err, db1)
  | (none, db1) => (none, db1)

/-- GetTxHist returns the transaction history for the record
(`db.go:141-163`): the list attribute `Hist` of the item decoded into
`entries`, which starts as the empty slice and stays so when there is no
item.  The parameter `count` is not used in the body. -/
def GetTxHist (up : Bool) (db : Table) (key : Int) (_count : Int) :
    List Entry × Option StoreError :=
  match getItem up db key with
  | .error err => ([], some err)
  | .ok item =>
    match item with
    | some r => (r.Hist, none)
    | none => ([], none)

/-! ## Sequences of calls -/

/-- One `UpdateBalance` call: its amount, the clock reading, and whether its
two requests reach the table. -/
structure Call where
  amount : String
  now : Int
  addUp : Bool
  trimUp : Bool
deriving DecidableEq, Repr

/-- History entry that a call records. -/
def Call.entry (c : Call) : Entry := { Timestamp := c.now, Amount := c.amount }

/-- Sequential calls `UpdateBalance(key, c.amount)`, one per element, with the
value each call returns and the table after the last one. -/
def runCalls (db : Table) (key : Int) :
    List Call → List (GoResult (String × Option StoreError)) × Table
  | [] => ([], db)
  | c :: cs =>
    match UpdateBalance c.addUp c.trimUp c.now db key c.amount with
    | (r, db1) =>
      match runCalls db1 key cs with
      | (rs, db2) => (r :: rs, db2)

/-- Running totals `b + a₁`, `b + a₁ + a₂`, ... of a list of amounts. -/
def runningTotals : ℚ → List ℚ → List ℚ
  | _, [] => []
  | b, a :: as => (b + a) :: runningTotals (b + a) as

/-- Table without any item. -/
def emptyTable : Table := fun _ => none

/-- Table whose only item is `row` under `key`. -/
def tableWith (key : Int) (row : Row) : Table := Function.update emptyTable key (some row)

/-- History after the second request of `UpdateBalance`: the oldest entry is
removed when the request is served and the length exceeds 10. -/
def histAfterTrim (trimUp : Bool) (h : List Entry) : List Entry :=
  if trimUp && decide (h.length > 10) then h.drop 1 else h

/-- History after a sequence of calls whose first requests all succeed. -/
def histRun (h : List Entry) (calls : List Call) : List Entry :=
  calls.foldl (fun h c => histAfterTrim c.trimUp (h ++ [c.entry])) h

/-! ## `main.go`: helpers of the standard library -/

/-- Lower-case form of an ASCII letter, as in `equalIgnoreCase` of `strconv`
and in `strings.ToLower` on ASCII. -/
def lowerAscii (c : Char) : Char :=
  if 'A' ≤ c ∧ c ≤ 'Z' then Char.ofNat (c.toNat + 32) else c

/-- Whole-string forms of infinity and NaN that `strconv.ParseFloat` accepts
(`special` in `atof.go`), compared without regard to case. -/
def isSpecialFloat (cs : List Char) : Bool :=
  let l := cs.map lowerAscii
  l == "inf".data || l == "infinity".data || l == "+inf".data || l == "+infinity".data ||
    l == "-inf".data || l == "-infinity".data || l == "nan".data

/-- Decimal floating-point syntax of `strconv.ParseFloat` (`readFloat` in
`atof.go`): optional sign, digits with at most one point and at least one
digit, optional exponent `e` or `E` with optional sign and at least one digit.
The result is the digits read as one natural number, the count of fraction
digits, and the exponent. -/
def readFloat (cs : List Char) : Option (Nat × Nat × Int) :=
  let body := match cs with
    | '+' :: r => r
    | '-' :: r => r
    | r => r
  let mant := body.takeWhile (fun c => c.isDigit || c == '.')
  let rest := body.dropWhile (fun c => c.isDigit || c == '.')
  let ip := mant.takeWhile (fun c => c != '.')
  let fp := (mant.dropWhile (fun c => c != '.')).drop 1
  if (ip ++ fp).isEmpty then none
  else
    match digitsVal 0 (ip ++ fp) with
    | none => none
    | some m =>
      match rest with
      | [] => some (m, fp.length, 0)
      | c :: r =>
        if c == 'e' || c == 'E' then
          let neg := match r with
            | '-' :: _ => true
            | _ => false
          let ds := match r with
            | '+' :: d => d
            | '-' :: d => d
            | d => d
          if ds.isEmpty then none
          else
            match digitsVal 0 ds with
            | some e => some (m, fp.length, if neg then -(e : Int) else (e : Int))
            | none => none
        else none

/-- Range error of `strconv.ParseFloat(s, 32)`: the value `m * 10 ^ e / 10 ^ f`
rounds to infinity, that is, it reaches `2 ^ 128 - 2 ^ 103`, the midpoint
between the largest `float32` and `2 ^ 128`. -/
def overflowsFloat32 (m f : Nat) (e : Int) : Bool :=
  decide ((2 ^ 128 - 2 ^ 103) * 10 ^ (f + (-e).toNat) ≤ m * 10 ^ e.toNat)

/-- Test `err == nil` of `strconv.ParseFloat(s, 32)` on decimal input. -/
def parseFloat32Ok (s : String) : Bool :=
  isSpecialFloat s.data ||
    match readFloat s.data with
    | some (m, f, e) => !overflowsFloat32 m f e
    | none => false

/-- Value of `strconv.ParseInt(s, 10, 64)` and of `strconv.Atoi(s)` with the
error dropped: `0` on a syntax error, the nearest bound on a range error. -/
def parseInt64 (s : String) : Int :=
  let neg := match s.data with
    | '-' :: _ => true
    | _ => false
  let ds := match s.data with
    | '+' :: d => d
    | '-' :: d => d
    | d => d
  if ds.isEmpty then 0
  else
    match digitsVal 0 ds with
    | none => 0
    | some n =>
      if neg then (if 2 ^ 63 < n then -(2 ^ 63 : Int) else -(n : Int))
      else (if 2 ^ 63 ≤ n then (2 ^ 63 - 1 : Int) else (n : Int))

/-- Part of a string before its first occurrence of `c`, the whole string
when there is none (`s[:strings.Index(s, c)]` under the test `idx >= 0`). -/
def beforeFirst (c : Char) (s : String) : String :=
  String.mk (s.data.takeWhile (fun x => x != c))

/-- Part of a string after its first occurrence of `c`, empty when there is
none (`s[strings.Index(s, c)+1:]` under the test `idx >= 0`). -/
def afterFirst (c : Char) (s : String) : String :=
  String.mk ((s.data.dropWhile (fun x => x != c)).drop 1)

/-- Pieces of `strings.Split(s, " ")`, with `acc` the piece being read, in
reverse. -/
def splitSpacesFrom : List Char → List Char → List String
  | [], acc => [String.mk acc.reverse]
  | c :: r, acc =>
    if c == ' ' then String.mk acc.reverse :: splitSpacesFrom r []
    else splitSpacesFrom r (c :: acc)

/-- Function `strings.Split(s, " ")`. -/
def splitSpaces (s : String) : List String := splitSpacesFrom s.data []

/-- White space of `strings.TrimSpace` (`unicode.IsSpace`). -/
def isGoSpace (c : Char) : Bool :=
  let n := c.toNat
  n == 0x20 || (0x09 ≤ n && n ≤ 0x0d) || n == 0x85 || n == 0xa0 || n == 0x1680 ||
    (0x2000 ≤ n && n ≤ 0x200a) || n == 0x2028 || n == 0x2029 || n == 0x202f ||
    n == 0x205f || n == 0x3000

/-- Function `strings.TrimSpace`. -/
def trimSpace (s : String) : String :=
  String.mk (((s.data.dropWhile isGoSpace).reverse.dropWhile isGoSpace).reverse)

/-! ## `main.go` -/

/-- The function negate (`main.go:219-225`): a leading `-` is removed,
otherwise a `-` is put in front; `num[0]` panics on the empty string. -/
def negate (num : String) : GoResult String :=
  match num.data with
  | [] => .panic
  | c :: cs => if c == '-' then .ret (String.mk cs) else .ret ("-" ++ num)

/-- Message that the bot hands to `bot.Send`: a plain text, a text that forces
a reply to message `replyTo`, or one history entry with the callback data of
its reverse button. -/
inductive Outgoing where
  | text (chatID : Int) (body : String)
  | forceReply (chatID : Int) (body : String) (replyTo : Int)
  | histEntry (chatID : Int) (entry : Entry) (callbackData : String)
deriving DecidableEq, Repr

/-- Call into package `beancount`. -/
inductive LedgerCall where
  | getBalance (key : Int)
  | updateBalance (key : Int) (amount : String)
  | resetBalance (key : Int) (newBal : String)
  | getTxHist (key : Int) (count : Int)
deriving DecidableEq, Repr

/-- How an invocation of the handler ends: it returns, `log.Fatal` ends the
process, or it panics. -/
inductive Exit where
  | returned
  | fatal
  | panicked
deriving DecidableEq, Repr

/-- What an invocation acts on: the table, the messages handed to `bot.Send`
and the calls into `beancount`, both in order. -/
structure World where
  db : Table
  sent : List Outgoing
  calls : List LedgerCall

/-- Inputs of an invocation that the handler does not control: the clock,
whether each kind of table request is served, and whether `bot.Send`
succeeds. -/
structure Env where
  now : Int
  addUp : Bool
  trimUp : Bool
  readUp : Bool
  putUp : Bool
  sendUp : Bool
deriving DecidableEq, Repr

/-- Fields of `tgbotapi.Message` that the handler reads. -/
structure Message where
  ChatID : Int
  MessageID : Int
  Text : String
  IsReply : Bool
deriving DecidableEq, Repr

/-- Fields of `tgbotapi.CallbackQuery` that the handler reads. -/
structure CallbackQuery where
  Data : String
  UserName : String
deriving DecidableEq, Repr

/-- Fields of `tgbotapi.Update` that the handler reads; both are pointers. -/
structure Update where
  CallbackQuery : Option CallbackQuery
  Message : Option Message
deriving DecidableEq, Repr

/-- SendMsg sends a simple telegram message back to the user
(`main.go:194-202`); the result is `err == nil`. -/
def SendMsg (env : Env) (w : World) (chatID : Int) (text : String) : Bool × World :=
  (env.sendUp, { w with sent := w.sent ++ [Outgoing.text chatID text] })

/-- PrintHist displays the transaction history in chat, along with the
reverse entry button (`main.go:204-217`); the result of `bot.Send` is
dropped. -/
def PrintHist (chatID : Int) : World → List Entry → Option Exit × World
  | w, [] => (none, w)
  | w, entry :: rest =>
    match negate entry.Amount with
    | .panic => (some .panicked, w)
    | .ret neg =>
      PrintHist chatID
        { w with sent := w.sent ++
            [Outgoing.histEntry chatID entry (toString chatID ++ " " ++ neg)] }
        rest

/-- The three places that call `beancount.UpdateBalance`, end the process on
an error, and report the new balance with `SendMsg`, ending the process when
that fails (`main.go:71-78`, `103-110`, `151-158`).  `none` means that the
handler goes on. -/
def updateAndReport (env : Env) (w : World) (chatID : Int) (amount : String)
    (report : String → String) : Option Exit × World :=
  let w1 : World := { w with calls := w.calls ++ [LedgerCall.updateBalance chatID amount] }
  match UpdateBalance env.addUp env.trimUp env.now w1.db chatID amount with
  | (.panic, db1) => (some .panicked, { w1 with db := db1 })
  | (.ret (_, some _), db1) => (some .fatal, { w1 with db := db1 })
  | (.ret (newBal, none), db1) =>
    match SendMsg env { w1 with db := db1 } chatID (report newBal) with
    | (false, w2) => (some .fatal, w2)
    | (true, w2) => (none, w2)

/-- The switch on the command text (`main.go:112-191`). -/
def handleCommand (env : Env) (w : World) (msg : Message) : Exit × World :=
  let chatID := msg.ChatID
  let hasSpace := msg.Text.data.any (fun c => c == ' ')
  let cmdText := if hasSpace then beforeFirst ' ' msg.Text else msg.Text
  let args := if hasSpace then afterFirst ' ' msg.Text else ""
  let cmdText := beforeFirst '@' cmdText
  if cmdText == "/add" then
    if args.length == 0 then
      (.returned, { w with sent := w.sent ++
        [Outgoing.forceReply chatID "How much?" msg.MessageID] })
    else
      let args := beforeFirst ' ' args
      let step : Option Exit × World :=
        if !parseFloat32Ok args then
          match SendMsg env w chatID "Don't understand, please try again." with
          | (false, w1) => (some .fatal, w1)
          | (true, w1) => (none, w1)
        else (none, w)
      match step with
      | (some e, w1) => (e, w1)
      | (none, w1) =>
        match updateAndReport env w1 chatID args
            (fun newBal => "Balance updated. New balance " ++ newBal) with
        | (some e, w2) => (e, w2)
        | (none, w2) => (.returned, w2)
  else if cmdText == "/list" then
    let cnt := parseInt64 args
    let cnt := if cnt == 0 then 10 else cnt
    let w1 : World := { w with calls := w.calls ++ [LedgerCall.getTxHist chatID cnt] }
    match GetTxHist env.readUp w1.db chatID cnt with
    | (_, some _) => (.fatal, w1)
    | (hist, none) =>
      match PrintHist chatID w1 hist with
      | (some e, w2) => (e, w2)
      | (none, w2) => (.returned, w2)
  else if cmdText == "/balance" then
    let w1 : World := { w with calls := w.calls ++ [LedgerCall.getBalance chatID] }
    match GetBalance env.readUp w1.db chatID with
    | (_, some _) => (.fatal, w1)
    | (bal, none) =>
      match SendMsg env w1 chatID ("Current balance: " ++ bal) with
      | (false, w2) => (.fatal, w2)
      | (true, w2) => (.returned, w2)
  else if cmdText == "/reset" then
    let newBal := if parseFloat32Ok args then args else "0"
    let w1 : World := { w with calls := w.calls ++ [LedgerCall.resetBalance chatID newBal] }
    match ResetBalance env.putUp w1.db chatID newBal with
    | (some _, db1) => (.fatal, { w1 with db := db1 })
    | (none, db1) =>
      match SendMsg env { w1 with db := db1 } chatID "Balance reset" with
      | (false, w2) => (.fatal, w2)
      | (true, w2) => (.returned, w2)
  else (.returned, w)

/-- The handler handleTelegramMsg (`main.go:45-192`), after the lazy set-up of
the configuration, the bot and the table client (lines 46-65), which is
taken to succeed.  The comparison with `cancel` lower-cases ASCII letters; no
other letter has a lower-case form among the letters of `cancel`, so this
decides the comparison as `strings.ToLower` does. -/
def handleTelegramMsg (env : Env) (w : World) (update : Update) : Exit × World :=
  match update.CallbackQuery with
  | some cbQuery =>
    match splitSpaces cbQuery.Data with
    | d0 :: d1 :: _ =>
      let chatID := parseInt64 d0
      match updateAndReport env w chatID d1
          (fun newBal => "@" ++ cbQuery.UserName ++
            " reverted entry.\nBalance updated. New balance " ++ newBal) with
      | (some e, w1) => (e, w1)
      | (none, w1) => (.returned, w1)
    | _ => (.panicked, w)
  | none =>
    match update.Message with
    | none => (.panicked, w)
    | some msg =>
      let chatID := msg.ChatID
      if msg.IsReply then
        let amt := msg.Text
        if (trimSpace amt).data.map lowerAscii == "cancel".data then (.returned, w)
        else
          let amt := beforeFirst ' ' amt
          if amt.length == 0 || !parseFloat32Ok amt then
            (.returned, { w with sent := w.sent ++
              [Outgoing.forceReply chatID
                "Don't know what you're talking. Try again, or say \"cancel\" to cancel."
                msg.MessageID] })
          else
            match updateAndReport env w chatID amt
                (fun newBal => "Balance updated. New balance " ++ newBal) with
            | (some e, w1) => (e, w1)
            | (none, w1) => handleCommand env w1 msg
      else handleCommand env w msg

/-! ## Concurrent calls -/

/-- One request of an `UpdateBalance` call, as the table sees it. -/
inductive Req where
  | add (amount : String) (now : Int)
  | trim (up : Bool)
deriving DecidableEq, Repr

/-- The two requests of a call whose addition is served, in the order in
which `UpdateBalance` sends them. -/
def Call.requests (c : Call) : List Req := [Req.add c.amount c.now, Req.trim c.trimUp]

/-- The table after one request for the item of `key`; each request is
atomic. -/
def execReq (key : Int) (db : Table) : Req → Table
  | .add amount now => (sendAdd true db key amount (Entry.mk now amount)).2
  | .trim up => (sendTrim up db key).2

/-- All merges of two request sequences that keep the order within each. -/
def interleavings : List Req → List Req → List (List Req)
  | [], ys => [ys]
  | x :: xs, [] => [x :: xs]
  | x :: xs, y :: ys =>
    (interleavings xs (y :: ys)).map (fun s => x :: s) ++
      (interleavings (x :: xs) ys).map (fun s => y :: s)

/-- Amount that a request adds to the balance. -/
def Req.value : Req → ℚ
  | .add amount _ => numVal amount
  | .trim _ => 0

/-- A request is well formed when its amount, if it has one, is a number. -/
def Req.wellFormed : Req → Bool
  | .add amount _ => (parseNumber amount).isSome
  | .trim _ => true

/-! ## Sample data -/

/-- Environment in which every request and every send succeeds, at clock
reading 7. -/
def sampleEnv : Env := Env.mk 7 true true true true true

/-- World whose table holds the account of chat 42 with balance 10 and no
history, before any message or call. -/
def sampleWorld : World := World.mk (tableWith 42 (Row.mk 10 [])) [] []

/-- Eleven served calls with the amounts `1` to `11`. -/
def elevenCalls : List Call :=
  [Call.mk "1" 1001 true true, Call.mk "2" 1002 true true, Call.mk "3" 1003 true true,
   Call.mk "4" 1004 true true, Call.mk "5" 1005 true true, Call.mk "6" 1006 true true,
   Call.mk "7" 1007 true true, Call.mk "8" 1008 true true, Call.mk "9" 1009 true true,
   Call.mk "10" 1010 true true, Call.mk "11" 1011 true true]

/-- Item with balance `0` and a history of `n` entries of amount `1`. -/
def rowOfLength (n : Nat) : Row := Row.mk 0 (List.replicate n (Entry.mk 0 "1"))

/-! ## Lemmas on numbers -/

theorem parseUnsigned_head (c : Char) (cs : List Char) (p : Nat × Nat)
    (h : parseUnsigned (c :: cs) = some p) : c ≠ '-' ∧ c ≠ '+' := by
  constructor
  · rintro rfl
    simp [parseUnsigned, digitsVal, digitVal] at h
  · rintro rfl
    simp [parseUnsigned, digitsVal, digitVal] at h

theorem decValue_neg (m : Nat) (k : Nat) :
    decValue (-(m : Int), k) = -decValue ((m : Int), k) := by
  simp [decValue, neg_div]

theorem parseNumber_unsigned (cs : List Char) (p : Nat × Nat) (h : parseUnsigned cs = some p) :
    parseNumber (String.mk cs) = some (decValue ((p.1 : Int), p.2)) := by
  cases cs with
  | nil => simp [parseUnsigned] at h
  | cons c r =>
    obtain ⟨h1, h2⟩ := parseUnsigned_head c r p h
    unfold parseNumber parseDecimal
    split
    · rename_i heq
      simp at heq
      exact absurd heq.1 h1
    · rename_i heq
      simp at heq
      exact absurd heq.1 h2
    · simp [h]

theorem parseNumber_minus (cs : List Char) :
    parseNumber (String.mk ('-' :: cs)) =
      (parseUnsigned cs).map (fun p => -decValue ((p.1 : Int), p.2)) := by
  unfold parseNumber parseDecimal
  cases h : parseUnsigned cs with
  | none => simp [h]
  | some p => simp [h, decValue_neg]

theorem digitVal_ofNat (d : Nat) (hd : d < 10) : digitVal (Char.ofNat (48 + d)) = some d := by
  interval_cases d <;> decide

theorem isDigit_ofNat (d : Nat) (hd : d < 10) : (Char.ofNat (48 + d)).isDigit = true := by
  interval_cases d <;> decide

theorem digitsVal_map (l : List Nat) (hl : ∀ d ∈ l, d < 10) :
    ∀ acc : Nat, digitsVal acc (l.map (fun d => Char.ofNat (48 + d))) =
      some (l.foldl (fun a d => 10 * a + d) acc) := by
  induction l with
  | nil => intro acc; rfl
  | cons d ds ih =>
    intro acc
    simp only [List.map_cons, digitsVal, digitVal_ofNat d (hl d (List.mem_cons_self _ _)),
      List.foldl_cons]
    exact ih (fun x hx => hl x (List.mem_cons_of_mem _ hx)) _

theorem foldl_reverse_ofDigits (l : List Nat) :
    l.reverse.foldl (fun a d => 10 * a + d) 0 = Nat.ofDigits 10 l := by
  induction l with
  | nil => rfl
  | cons d ds ih =>
    simp only [List.reverse_cons, List.foldl_append, List.foldl_cons, List.foldl_nil, ih,
      Nat.ofDigits_cons]
    ring

theorem digitsVal_natDigits (m : Nat) : digitsVal 0 (natDigits m) = some m := by
  unfold natDigits
  rw [digitsVal_map _ (by
    intro d hd
    exact Nat.digits_lt_base (by norm_num) (List.mem_reverse.mp hd))]
  rw [foldl_reverse_ofDigits, Nat.ofDigits_digits]

theorem natDigits_isDigit (m : Nat) : ∀ c ∈ natDigits m, c.isDigit = true := by
  intro c hc
  unfold natDigits at hc
  obtain ⟨d, hd, rfl⟩ := List.mem_map.mp hc
  exact isDigit_ofNat d (Nat.digits_lt_base (by norm_num) (List.mem_reverse.mp hd))

theorem digitsVal_zeros (n : Nat) (cs : List Char) :
    digitsVal 0 (List.replicate n '0' ++ cs) = digitsVal 0 cs := by
  induction n with
  | zero => rfl
  | succ n ih =>
    rw [List.replicate_succ, List.cons_append]
    have h0 : digitVal '0' = some 0 := by decide
    simp only [digitsVal, h0]
    exact ih

theorem isDigit_ne (c : Char) (h : c.isDigit = true) : c ≠ '.' ∧ c ≠ '-' ∧ c ≠ '+' := by
  refine ⟨?_, ?_, ?_⟩ <;> rintro rfl <;> revert h <;> decide

theorem takeWhile_point (l r : List Char) (hl : ∀ c ∈ l, c.isDigit = true) :
    (l ++ '.' :: r).takeWhile (fun c => c != '.') = l ∧
      (l ++ '.' :: r).dropWhile (fun c => c != '.') = '.' :: r := by
  induction l with
  | nil => simp
  | cons c cs ih =>
    have hc := (isDigit_ne c (hl c (List.mem_cons_self _ _))).1
    obtain ⟨h1, h2⟩ := ih (fun x hx => hl x (List.mem_cons_of_mem _ hx))
    simp [List.takeWhile_cons, List.dropWhile_cons, hc, h1, h2]

theorem takeWhile_digits (l : List Char) (hl : ∀ c ∈ l, c.isDigit = true) :
    l.takeWhile (fun c => c != '.') = l ∧ l.dropWhile (fun c => c != '.') = [] := by
  induction l with
  | nil => simp
  | cons c cs ih =>
    have hc := (isDigit_ne c (hl c (List.mem_cons_self _ _))).1
    obtain ⟨h1, h2⟩ := ih (fun x hx => hl x (List.mem_cons_of_mem _ hx))
    simp [List.takeWhile_cons, List.dropWhile_cons, hc, h1, h2]

theorem parseUnsigned_unsignedChars (m k : Nat) :
    parseUnsigned (unsignedChars m k) = some (m, k) := by
  have hds : ∀ c ∈ List.replicate (k + 1 - (natDigits m).length) '0' ++ natDigits m,
      c.isDigit = true := by
    intro c hc
    rcases List.mem_append.mp hc with h | h
    · rw [(List.mem_replicate.mp h).2]
      decide
    · exact natDigits_isDigit m c h
  have hval : digitsVal 0 (List.replicate (k + 1 - (natDigits m).length) '0' ++ natDigits m) =
      some m := by
    rw [digitsVal_zeros, digitsVal_natDigits]
  have hlen : k + 1 ≤ (List.replicate (k + 1 - (natDigits m).length) '0' ++ natDigits m).length := by
    simp only [List.length_append, List.length_replicate]
    omega
  unfold unsignedChars
  simp only []
  generalize List.replicate (k + 1 - (natDigits m).length) '0' ++ natDigits m = ds
    at hds hval hlen
  have hne : ds ≠ [] := by
    intro h
    rw [h] at hlen
    simp at hlen
  by_cases hk : k = 0
  · subst hk
    obtain ⟨h1, h2⟩ := takeWhile_digits ds hds
    simp [parseUnsigned, h1, h2, hval, hne]
  · have hip : ∀ c ∈ ds.take (ds.length - k), c.isDigit = true :=
      fun c hc => hds c (List.mem_of_mem_take hc)
    obtain ⟨h1, h2⟩ := takeWhile_point (ds.take (ds.length - k)) (ds.drop (ds.length - k)) hip
    have hfl : (ds.drop (ds.length - k)).length = k := by
      rw [List.length_drop]
      omega
    simp only [hk, if_false]
    unfold parseUnsigned
    simp only [h1, h2, List.drop_one, List.tail_cons, List.take_append_drop, hval, hfl]
    simp [hne]

theorem parseNumber_renderNumber_aux (neg : Bool) (m k : Nat) :
    parseNumber (String.mk ((if neg then ['-'] else []) ++ unsignedChars m k)) =
      some (if neg then -decValue ((m : Int), k) else decValue ((m : Int), k)) := by
  cases neg
  · simp only [Bool.false_eq_true, if_false, List.nil_append]
    rw [parseNumber_unsigned _ (m, k) (parseUnsigned_unsignedChars m k)]
  · simp only [if_true, List.cons_append, List.nil_append]
    rw [parseNumber_minus, parseUnsigned_unsignedChars]
    rfl

theorem dvd_pow_self_of_dvd_pow (d K : Nat) (hd : d ≠ 0) (h : d ∣ 10 ^ K) : d ∣ 10 ^ d := by
  rw [← Nat.factorization_le_iff_dvd hd (by positivity)]
  intro p
  rw [Nat.factorization_pow]
  simp only [Finsupp.coe_smul, Pi.smul_apply, smul_eq_mul]
  by_cases hp : (Nat.factorization 10) p = 0
  · have h1 := (Nat.factorization_le_iff_dvd hd (by positivity)).mpr h p
    rw [Nat.factorization_pow] at h1
    simp only [Finsupp.coe_smul, Pi.smul_apply, smul_eq_mul, hp, mul_zero] at h1
    omega
  · have h2 := Nat.factorization_lt p hd
    have h3 : 1 ≤ (Nat.factorization 10) p := Nat.one_le_iff_ne_zero.mpr hp
    nlinarith

theorem decScale_dvd (q : ℚ) (h : IsDecimal q) : q.den ∣ 10 ^ decScale q := by
  obtain ⟨K, hK⟩ := h
  have hd := dvd_pow_self_of_dvd_pow q.den K q.den_nz hK
  unfold decScale
  cases hf : (List.range (q.den + 1)).find? (fun k => 10 ^ k % q.den == 0) with
  | none =>
    rw [List.find?_eq_none] at hf
    have := hf q.den (List.mem_range.mpr (Nat.lt_succ_self _))
    simp [Nat.mod_eq_zero_of_dvd hd] at this
  | some k =>
    have := List.find?_some hf
    simp only [Option.getD_some]
    exact Nat.dvd_of_mod_eq_zero (by simpa using this)

theorem render_value (q : ℚ) (h : IsDecimal q) :
    (if (decide (q < 0)) = true then
        -decValue (((q.num.natAbs * (10 ^ decScale q / q.den) : Nat) : Int), decScale q)
      else decValue (((q.num.natAbs * (10 ^ decScale q / q.den) : Nat) : Int), decScale q)) =
      q := by
  have hdvd := decScale_dvd q h
  obtain ⟨c, hc⟩ := hdvd
  have hden : (q.den : ℚ) ≠ 0 := by exact_mod_cast q.den_nz
  have hc0 : c ≠ 0 := by
    rintro rfl
    simp at hc
  have hcq : (c : ℚ) ≠ 0 := by exact_mod_cast hc0
  have hdiv : 10 ^ decScale q / q.den = c := by
    rw [hc]
    exact Nat.mul_div_cancel_left c (Nat.pos_of_ne_zero q.den_nz)
  have hpow : (10 : ℚ) ^ decScale q = (q.den : ℚ) * (c : ℚ) := by
    have : ((10 ^ decScale q : Nat) : ℚ) = ((q.den * c : Nat) : ℚ) := by rw [hc]
    push_cast at this
    exact this
  have habs : decValue (((q.num.natAbs * (10 ^ decScale q / q.den) : Nat) : Int), decScale q) =
      |(q.num : ℚ)| / (q.den : ℚ) := by
    unfold decValue
    rw [hdiv]
    simp only
    rw [hpow]
    push_cast
    field_simp
    ring
  rw [habs]
  have hq : (q.num : ℚ) / (q.den : ℚ) = q := Rat.num_div_den q
  by_cases hneg : q < 0
  · have hn : (q.num : ℚ) < 0 := by exact_mod_cast Rat.num_neg.mpr hneg
    simp only [hneg, decide_True, if_true, abs_of_neg hn]
    rw [neg_div, neg_neg, hq]
  · have hn : (0 : ℚ) ≤ (q.num : ℚ) := by exact_mod_cast Rat.num_nonneg.mpr (not_lt.mp hneg)
    simp only [hneg, decide_False, Bool.false_eq_true, if_false, abs_of_nonneg hn]
    exact hq

/-- The table reads back the string it returns for a decimal as that
decimal. -/
theorem parseNumber_renderNumber (q : ℚ) (h : IsDecimal q) :
    parseNumber (renderNumber q) = some q := by
  unfold renderNumber
  have h1 := parseNumber_renderNumber_aux (decide (q < 0))
    (q.num.natAbs * (10 ^ decScale q / q.den)) (decScale q)
  have h2 := render_value q h
  rw [h2] at h1
  simpa using h1

theorem isDecimal_decValue (p : Int × Nat) : IsDecimal (decValue p) := by
  refine ⟨p.2, ?_⟩
  have h : decValue p = Rat.divInt p.1 ((10 ^ p.2 : Nat) : Int) := by
    rw [Rat.divInt_eq_div]
    simp [decValue]
  rw [h]
  exact Int.natCast_dvd_natCast.mp (Rat.den_dvd p.1 ((10 ^ p.2 : Nat) : Int))

theorem isDecimal_zero : IsDecimal 0 := ⟨0, by simp⟩

theorem isDecimal_add (a b : ℚ) (ha : IsDecimal a) (hb : IsDecimal b) : IsDecimal (a + b) := by
  obtain ⟨k, hk⟩ := ha
  obtain ⟨l, hl⟩ := hb
  refine ⟨k + l, ?_⟩
  rw [pow_add]
  exact (Rat.add_den_dvd a b).trans (Nat.mul_dvd_mul hk hl)

theorem isDecimal_neg (a : ℚ) (ha : IsDecimal a) : IsDecimal (-a) := by
  obtain ⟨k, hk⟩ := ha
  exact ⟨k, by simpa using hk⟩

theorem isDecimal_of_parseNumber (s : String) (q : ℚ) (h : parseNumber s = some q) :
    IsDecimal q := by
  unfold parseNumber at h
  cases hp : parseDecimal s with
  | none => simp [hp] at h
  | some p =>
    simp only [hp, Option.map_some', Option.some.injEq] at h
    rw [← h]
    exact isDecimal_decValue p

theorem isDecimal_numVal (s : String) : IsDecimal (numVal s) := by
  unfold numVal
  cases h : parseNumber s with
  | none => exact isDecimal_zero
  | some q => exact isDecimal_of_parseNumber s q h

theorem isDecimal_sum (l : List String) : IsDecimal ((l.map numVal).sum) := by
  induction l with
  | nil => exact isDecimal_zero
  | cons a as ih =>
    simp only [List.map_cons, List.sum_cons]
    exact isDecimal_add _ _ (isDecimal_numVal a) ih

/-! ## Lemmas on single requests -/

theorem sendAdd_ok (db : Table) (key : Int) (amount : String) (e : Entry) (r : Row) (a : ℚ)
    (hr : db key = some r) (ha : parseNumber amount = some a) :
    sendAdd true db key amount e =
      ((some { Balance := some (renderNumber (r.Balance + a)) }, none),
        Function.update db key (some { Balance := r.Balance + a, Hist := r.Hist ++ [e] })) := by
  simp [sendAdd, hr, ha]

theorem sendAdd_absent (up : Bool) (db : Table) (key : Int) (amount : String) (e : Entry)
    (hr : db key = none) :
    (sendAdd up db key amount e).1.1 = none ∧ (sendAdd up db key amount e).2 = db := by
  cases up <;> simp [sendAdd, hr]

theorem sendAdd_error (up : Bool) (db : Table) (key : Int) (amount : String) (e : Entry)
    (h : (sendAdd up db key amount e).1.2 ≠ none) :
    (sendAdd up db key amount e).1.1 = none ∧ (sendAdd up db key amount e).2 = db := by
  unfold sendAdd at h ⊢
  cases up
  · simp
  · cases hk : db key <;> cases hp : parseNumber amount <;> simp [hk, hp] at h ⊢

theorem sendTrim_table (up : Bool) (db : Table) (key : Int) (r : Row) (hr : db key = some r) :
    (sendTrim up db key).2 =
      Function.update db key (some { Balance := r.Balance, Hist := histAfterTrim up r.Hist }) := by
  unfold sendTrim histAfterTrim
  cases up
  · simp [hr]
  · by_cases hl : r.Hist.length > 10
    · simp [hr, hl]
    · simp [hr, hl]

/-- Effect of one `UpdateBalance` whose first request is served, on an item
that exists, with an amount that is a number. -/
theorem UpdateBalance_ok (trimUp : Bool) (now : Int) (db : Table) (key : Int) (amount : String)
    (r : Row) (a : ℚ) (hr : db key = some r) (ha : parseNumber amount = some a) :
    UpdateBalance true trimUp now db key amount =
      (GoResult.ret (renderNumber (r.Balance + a), none),
        Function.update db key
          (some (Row.mk (r.Balance + a) (histAfterTrim trimUp (r.Hist ++ [Entry.mk now amount]))))) := by
  simp only [UpdateBalance]
  rw [sendAdd_ok db key amount (Entry.mk now amount) r a hr ha]
  simp only [Option.bind]
  rw [sendTrim_table trimUp _ key (Row.mk (r.Balance + a) (r.Hist ++ [Entry.mk now amount]))
    (by simp)]
  simp

/-- A failed first request makes `UpdateBalance` panic and leaves the table
as it was. -/
theorem UpdateBalance_of_error (addUp trimUp : Bool) (now : Int) (db : Table) (key : Int)
    (amount : String) (h : (sendAdd addUp db key amount (Entry.mk now amount)).1.2 ≠ none) :
    UpdateBalance addUp trimUp now db key amount = (GoResult.panic, db) := by
  obtain ⟨h1, h2⟩ := sendAdd_error addUp db key amount (Entry.mk now amount) h
  simp only [UpdateBalance]
  rcases hs : sendAdd addUp db key amount (Entry.mk now amount) with ⟨⟨res, err⟩, db1⟩
  rw [hs] at h1 h2
  simp only at h1 h2
  subst h1; subst h2
  rfl

theorem sendAdd_err_none (addUp : Bool) (db : Table) (key : Int) (amount : String) (e : Entry)
    (h : (sendAdd addUp db key amount e).1.2 = none) :
    addUp = true ∧ (∃ r, db key = some r) ∧ ∃ a, parseNumber amount = some a := by
  unfold sendAdd at h
  cases addUp
  · simp at h
  · cases hk : db key <;> cases hp : parseNumber amount <;> simp [hk, hp] at h ⊢

/-! ## Lemmas on sequences of calls -/

theorem histAfterTrim_length (t : Bool) (h : List Entry) :
    (¬ (t = true ∧ 10 < h.length) ∧ (histAfterTrim t h).length = h.length) ∨
      (t = true ∧ 10 < h.length ∧ (histAfterTrim t h).length + 1 = h.length) := by
  unfold histAfterTrim
  by_cases hl : 10 < h.length
  · cases t
    · simp
    · right
      simp [hl]
      omega
  · left
    simp [hl]

theorem runCalls_ok (key : Int) (calls : List Call) :
    ∀ (db : Table) (r : Row), db key = some r →
      (∀ c ∈ calls, c.addUp = true ∧ (parseNumber c.amount).isSome = true) →
      (runCalls db key calls).1 =
          (runningTotals r.Balance (calls.map (fun c => numVal c.amount))).map
            (fun q => GoResult.ret (renderNumber q, none)) ∧
        (runCalls db key calls).2 key =
          some (Row.mk (r.Balance + (calls.map (fun c => numVal c.amount)).sum)
            (histRun r.Hist calls)) := by
  induction calls with
  | nil =>
    intro db r hr _
    simp [runCalls, runningTotals, histRun, hr]
  | cons c cs ih =>
    intro db r hr hc
    obtain ⟨hup, hnum⟩ := hc c (List.mem_cons_self _ _)
    obtain ⟨a, ha⟩ := Option.isSome_iff_exists.mp hnum
    have hval : numVal c.amount = a := by simp [numVal, ha]
    have hstep := UpdateBalance_ok c.trimUp c.now db key c.amount r a hr ha
    have ih1 := ih (Function.update db key
        (some (Row.mk (r.Balance + a)
          (histAfterTrim c.trimUp (r.Hist ++ [Entry.mk c.now c.amount])))))
      (Row.mk (r.Balance + a) (histAfterTrim c.trimUp (r.Hist ++ [Entry.mk c.now c.amount])))
      (by simp) (fun c1 h1 => hc c1 (List.mem_cons_of_mem _ h1))
    simp only [runCalls, hup, hstep, List.map_cons, runningTotals, hval, List.sum_cons]
    refine ⟨?_, ?_⟩
    · rw [ih1.1]
    · rw [ih1.2]
      simp [histRun, Call.entry, add_assoc]

theorem drop_last_ten_step (zs : List Entry) (r : List Entry) (k : Nat)
    (hk : k ≤ zs.length) (hk10 : k + 10 ≤ zs.length ∨ k = 0) :
    (zs.drop k ++ r).drop ((zs.drop k ++ r).length - 10) =
      (zs ++ r).drop ((zs ++ r).length - 10) := by
  rcases hk10 with h | h
  · have h1 : zs.drop k ++ r = (zs ++ r).drop k := by
      rw [List.drop_append_of_le_length hk]
    rw [h1, List.drop_drop]
    congr 1
    simp only [List.length_drop, List.length_append]
    omega
  · subst h
    simp

theorem histRun_all_trim (calls : List Call) :
    ∀ h : List Entry, h.length ≤ 10 → (∀ c ∈ calls, c.trimUp = true) →
      histRun h calls =
        (h ++ calls.map Call.entry).drop ((h ++ calls.map Call.entry).length - 10) := by
  induction calls with
  | nil =>
    intro h hl _
    have h0 : h.length - 10 = 0 := by omega
    simp [histRun, h0]
  | cons c cs ih =>
    intro h hl hc
    have ht : c.trimUp = true := hc c (List.mem_cons_self _ _)
    have hstep : histAfterTrim c.trimUp (h ++ [c.entry]) =
        (h ++ [c.entry]).drop ((h ++ [c.entry]).length - 10) := by
      unfold histAfterTrim
      by_cases hl10 : h.length = 10
      · simp [ht, hl10]
      · have : h.length < 10 := by omega
        have h0 : h.length + 1 - 10 = 0 := by omega
        have h1 : ¬ (10 < h.length + 1) := by omega
        simp [ht, h0, h1]
    have hlen : (histAfterTrim c.trimUp (h ++ [c.entry])).length ≤ 10 := by
      rw [hstep]
      simp only [List.length_drop, List.length_append, List.length_singleton]
      omega
    have := ih (histAfterTrim c.trimUp (h ++ [c.entry])) hlen
      (fun c1 h1 => hc c1 (List.mem_cons_of_mem _ h1))
    simp only [histRun, List.foldl_cons] at this ⊢
    rw [this, hstep]
    have hd := drop_last_ten_step (h ++ [c.entry]) (cs.map Call.entry)
      ((h ++ [c.entry]).length - 10) (by omega) (by
        simp only [List.length_append, List.length_singleton]
        omega)
    rw [hd]
    simp

theorem ResetBalance_ok (db : Table) (key : Int) (v : String) (q : ℚ)
    (hv : parseNumber v = some q) :
    ResetBalance true db key v = (none, Function.update db key (some (Row.mk q []))) := by
  simp [ResetBalance, sendPut, hv]

theorem UpdateBalance_absent (addUp trimUp : Bool) (now : Int) (db : Table) (key : Int)
    (amount : String) (h : db key = none) :
    UpdateBalance addUp trimUp now db key amount = (GoResult.panic, db) := by
  apply UpdateBalance_of_error
  unfold sendAdd
  cases addUp <;> simp [h]

/-- Any `UpdateBalance` on an existing item keeps the item; its history keeps
its length, or grows by one, or (served trim above the bound) keeps it after
growing by one. -/
theorem UpdateBalance_hist (addUp trimUp : Bool) (now : Int) (db : Table) (key : Int)
    (amount : String) (r : Row) (hr : db key = some r) :
    ∃ r1, (UpdateBalance addUp trimUp now db key amount).2 key = some r1 ∧
      (r1.Hist.length = r.Hist.length ∨ r1.Hist.length = r.Hist.length + 1) := by
  by_cases he : (sendAdd addUp db key amount (Entry.mk now amount)).1.2 = none
  · obtain ⟨hup, _, a, ha⟩ := sendAdd_err_none addUp db key amount _ he
    subst hup
    rw [UpdateBalance_ok trimUp now db key amount r a hr ha]
    refine ⟨Row.mk (r.Balance + a)
      (histAfterTrim trimUp (r.Hist ++ [Entry.mk now amount])), by simp, ?_⟩
    rcases histAfterTrim_length trimUp (r.Hist ++ [Entry.mk now amount]) with ⟨_, h⟩ | ⟨_, _, h⟩
    · right
      simpa using h
    · left
      simp only [List.length_append, List.length_singleton] at h ⊢
      omega
  · rw [UpdateBalance_of_error addUp trimUp now db key amount he]
    exact ⟨r, hr, Or.inl rfl⟩

theorem runCalls_hist_above (key : Int) (calls : List Call) :
    ∀ (db : Table) (r : Row), db key = some r → 10 < r.Hist.length →
      ∃ r1, (runCalls db key calls).2 key = some r1 ∧ 10 < r1.Hist.length := by
  induction calls with
  | nil =>
    intro db r hr hl
    exact ⟨r, by simpa [runCalls] using hr, hl⟩
  | cons c cs ih =>
    intro db r hr hl
    obtain ⟨r1, h1, h2⟩ := UpdateBalance_hist c.addUp c.trimUp c.now db key c.amount r hr
    obtain ⟨r2, h3, h4⟩ := ih _ r1 h1 (by omega)
    exact ⟨r2, by simpa [runCalls] using h3, h4⟩

/-! ## The claims -/

/-- C1: after a served `ResetBalance(key, v)` with a decimal `v`, sequential
calls `UpdateBalance(key, aᵢ)` with decimal amounts whose additions are served
return the running totals `v + a₁ + .. + aᵢ`, and `GetBalance(key)` then
returns the string of `v + a₁ + .. + aₙ`, which reads back as exactly that
number, whatever the prior table and whichever trim requests were served. -/
theorem reset_then_updates_balance (db : Table) (key : Int) (v : String) (calls : List Call)
    (hv : (parseNumber v).isSome = true)
    (hc : ∀ c ∈ calls, c.addUp = true ∧ (parseNumber c.amount).isSome = true) :
    (ResetBalance true db key v).1 = none ∧
      (runCalls (ResetBalance true db key v).2 key calls).1 =
        (runningTotals (numVal v) (calls.map (fun c => numVal c.amount))).map
          (fun q => GoResult.ret (renderNumber q, none)) ∧
      GetBalance true (runCalls (ResetBalance true db key v).2 key calls).2 key =
        (renderNumber (numVal v + (calls.map (fun c => numVal c.amount)).sum), none) ∧
      parseNumber (GetBalance true (runCalls (ResetBalance true db key v).2 key calls).2 key).1 =
        some (numVal v + (calls.map (fun c => numVal c.amount)).sum) := by
  have hdec : IsDecimal (numVal v + (calls.map (fun c => numVal c.amount)).sum) := by
    have h := isDecimal_sum (calls.map (fun c => c.amount))
    rw [List.map_map] at h
    exact isDecimal_add _ _ (isDecimal_numVal v) h
  obtain ⟨q, hq⟩ := Option.isSome_iff_exists.mp hv
  have hval : numVal v = q := by simp [numVal, hq]
  rw [ResetBalance_ok db key v q hq]
  rw [hval] at hdec ⊢
  obtain ⟨h1, h2⟩ := runCalls_ok key calls (Function.update db key (some (Row.mk q [])))
    (Row.mk q []) (by simp) hc
  have hg : GetBalance true
      (runCalls (Function.update db key (some (Row.mk q []))) key calls).2 key =
        (renderNumber (q + (calls.map (fun c => numVal c.amount)).sum), none) := by
    simp [GetBalance, getItem, h2, unmarshalAccount]
  refine ⟨rfl, h1, hg, ?_⟩
  rw [hg]
  exact parseNumber_renderNumber _ hdec

/-- Witness of C1: reset to `10.50`, then three additions, the second trim
request not served. -/
theorem reset_then_updates_balance_witness :
    (ResetBalance true emptyTable 42 "10.50").1 = none ∧
      (runCalls (ResetBalance true emptyTable 42 "10.50").2 42
          [Call.mk "-3.25" 100 true true, Call.mk "4" 101 true false,
            Call.mk "+0.75" 102 true true]).1 =
        (runningTotals (numVal "10.50")
            ([Call.mk "-3.25" 100 true true, Call.mk "4" 101 true false,
              Call.mk "+0.75" 102 true true].map (fun c => numVal c.amount))).map
          (fun q => GoResult.ret (renderNumber q, none)) ∧
      GetBalance true (runCalls (ResetBalance true emptyTable 42 "10.50").2 42
          [Call.mk "-3.25" 100 true true, Call.mk "4" 101 true false,
            Call.mk "+0.75" 102 true true]).2 42 =
        (renderNumber (numVal "10.50" +
          ([Call.mk "-3.25" 100 true true, Call.mk "4" 101 true false,
            Call.mk "+0.75" 102 true true].map (fun c => numVal c.amount)).sum), none) ∧
      parseNumber (GetBalance true (runCalls (ResetBalance true emptyTable 42 "10.50").2 42
          [Call.mk "-3.25" 100 true true, Call.mk "4" 101 true false,
            Call.mk "+0.75" 102 true true]).2 42).1 =
        some (numVal "10.50" +
          ([Call.mk "-3.25" 100 true true, Call.mk "4" 101 true false,
            Call.mk "+0.75" 102 true true].map (fun c => numVal c.amount)).sum) :=
  reset_then_updates_balance emptyTable 42 "10.50"
    [Call.mk "-3.25" 100 true true, Call.mk "4" 101 true false, Call.mk "+0.75" 102 true true]
    (by decide) (by decide)

/-- C2: after a served `ResetBalance(key, v)` followed by `n` sequential
`UpdateBalance` calls all of whose requests are served, `GetTxHist(key, count)`
returns the entries of the last `min n 10` calls in call order, for every
`count`: none for `n = 0`, all for `n ≤ 10`, the ten newest for `n > 10`. -/
theorem reset_then_updates_history (db : Table) (key : Int) (v : String) (calls : List Call)
    (count : Int) (hv : (parseNumber v).isSome = true)
    (hc : ∀ c ∈ calls,
      c.addUp = true ∧ c.trimUp = true ∧ (parseNumber c.amount).isSome = true) :
    GetTxHist true (runCalls (ResetBalance true db key v).2 key calls).2 key count =
        ((calls.map Call.entry).drop (calls.length - 10), none) ∧
      ((calls.map Call.entry).drop (calls.length - 10)).length = min calls.length 10 := by
  obtain ⟨q, hq⟩ := Option.isSome_iff_exists.mp hv
  rw [ResetBalance_ok db key v q hq]
  obtain ⟨_, h2⟩ := runCalls_ok key calls (Function.update db key (some (Row.mk q [])))
    (Row.mk q []) (by simp) (fun c h => ⟨(hc c h).1, (hc c h).2.2⟩)
  have h3 := histRun_all_trim calls [] (by simp) (fun c h => (hc c h).2.1)
  refine ⟨?_, ?_⟩
  · simp [GetTxHist, getItem, h2, h3]
  · simp only [List.length_drop, List.length_map]
    omega

/-- Witness of C2: eleven served calls after a reset; the entry of the first
call is the one that is gone. -/
theorem reset_then_updates_history_witness :
    GetTxHist true (runCalls (ResetBalance true emptyTable 42 "0").2 42 elevenCalls).2 42 3 =
        ((elevenCalls.map Call.entry).drop (elevenCalls.length - 10), none) ∧
      ((elevenCalls.map Call.entry).drop (elevenCalls.length - 10)).length =
        min elevenCalls.length 10 :=
  reset_then_updates_history emptyTable 42 "0" elevenCalls 3 (by decide) (by decide)

/-- C10: an `UpdateBalance` whose addition succeeds on an item with a history
of length `L` leaves a history of length `L + 1` or `L`, and of length `L`
exactly when the trim request is served with `L + 1 > 10`; so a history
longer than 10 stays longer than 10 after any further sequence of
`UpdateBalance` calls, and a served `ResetBalance` empties it. -/
theorem update_never_shortens_history (addUp trimUp : Bool) (now : Int) (db : Table)
    (key : Int) (amount : String) (r : Row) (hr : db key = some r)
    (hadd : ∃ s, (UpdateBalance addUp trimUp now db key amount).1 = GoResult.ret (s, none)) :
    (∃ r1, (UpdateBalance addUp trimUp now db key amount).2 key = some r1 ∧
        (r1.Hist.length = r.Hist.length + 1 ∨ r1.Hist.length = r.Hist.length) ∧
        (r1.Hist.length = r.Hist.length ↔ (trimUp = true ∧ 10 ≤ r.Hist.length)) ∧
        (10 < r.Hist.length → 10 < r1.Hist.length)) ∧
      (10 < r.Hist.length → ∀ calls : List Call,
        ∃ r2, (runCalls db key calls).2 key = some r2 ∧ 10 < r2.Hist.length) ∧
      (∀ v : String, (parseNumber v).isSome = true →
        ∃ r3, (ResetBalance true db key v).2 key = some r3 ∧ r3.Hist = []) := by
  refine ⟨?_, ?_, ?_⟩
  · have he : (sendAdd addUp db key amount (Entry.mk now amount)).1.2 = none := by
      by_contra hne
      obtain ⟨s, hs⟩ := hadd
      rw [UpdateBalance_of_error addUp trimUp now db key amount hne] at hs
      cases hs
    obtain ⟨hup, _, a, ha⟩ := sendAdd_err_none addUp db key amount _ he
    subst hup
    rw [UpdateBalance_ok trimUp now db key amount r a hr ha]
    refine ⟨Row.mk (r.Balance + a)
      (histAfterTrim trimUp (r.Hist ++ [Entry.mk now amount])), by simp, ?_⟩
    rcases histAfterTrim_length trimUp (r.Hist ++ [Entry.mk now amount]) with
      ⟨h1, h2⟩ | ⟨h1, h2, h3⟩
    · simp only [List.length_append, List.length_singleton] at h1 h2
      dsimp only
      refine ⟨Or.inl h2, ?_, ?_⟩
      · constructor
        · intro h4
          omega
        · intro ⟨h4, h5⟩
          exact absurd ⟨h4, by omega⟩ h1
      · intro h4
        omega
    · simp only [List.length_append, List.length_singleton] at h2 h3
      dsimp only
      refine ⟨Or.inr (by omega), ?_, ?_⟩
      · constructor
        · intro _
          exact ⟨h1, by omega⟩
        · intro _
          omega
      · intro h4
        omega
  · intro hl calls
    exact runCalls_hist_above key calls db r hr hl
  · intro v hv
    obtain ⟨q, hq⟩ := Option.isSome_iff_exists.mp hv
    rw [ResetBalance_ok db key v q hq]
    exact ⟨Row.mk q [], by simp, rfl⟩

/-- Witness of C10: an addition on a history of 11 entries whose trim request
is served. -/
theorem update_never_shortens_history_witness :
    (∃ r1, (UpdateBalance true true 7 (tableWith 42 (rowOfLength 11)) 42 "5").2 42 = some r1 ∧
        (r1.Hist.length = (rowOfLength 11).Hist.length + 1 ∨
          r1.Hist.length = (rowOfLength 11).Hist.length) ∧
        (r1.Hist.length = (rowOfLength 11).Hist.length ↔
          (true = true ∧ 10 ≤ (rowOfLength 11).Hist.length)) ∧
        (10 < (rowOfLength 11).Hist.length → 10 < r1.Hist.length)) ∧
      (10 < (rowOfLength 11).Hist.length → ∀ calls : List Call,
        ∃ r2, (runCalls (tableWith 42 (rowOfLength 11)) 42 calls).2 42 = some r2 ∧
          10 < r2.Hist.length) ∧
      (∀ v : String, (parseNumber v).isSome = true →
        ∃ r3, (ResetBalance true (tableWith 42 (rowOfLength 11)) 42 v).2 42 = some r3 ∧
          r3.Hist = []) :=
  update_never_shortens_history true true 7 (tableWith 42 (rowOfLength 11)) 42 "5"
    (rowOfLength 11) (by simp [tableWith])
    ⟨renderNumber ((rowOfLength 11).Balance + numVal "5"), by
      rw [UpdateBalance_ok true 7 (tableWith 42 (rowOfLength 11)) 42 "5" (rowOfLength 11)
        (numVal "5") (by simp [tableWith]) (by
          have h : (parseNumber "5").isSome = true := by decide
          obtain ⟨q, hq⟩ := Option.isSome_iff_exists.mp h
          simp [numVal, hq])]⟩

theorem runCalls_absent (key : Int) (calls : List Call) :
    ∀ db : Table, db key = none →
      (runCalls db key calls).2 = db ∧
        ∀ r ∈ (runCalls db key calls).1, r = GoResult.panic := by
  induction calls with
  | nil =>
    intro db _
    simp [runCalls]
  | cons c cs ih =>
    intro db h
    obtain ⟨h1, h2⟩ := ih db h
    simp only [runCalls, UpdateBalance_absent c.addUp c.trimUp c.now db key c.amount h]
    refine ⟨h1, ?_⟩
    intro r hr
    rcases List.mem_cons.mp hr with h3 | h3
    · exact h3
    · exact h2 r h3

/-- Counterexample to C3: on a table without an item for chat 42, a served
`UpdateBalance(42, "5")` does not return a balance, creates no item, and the
history read afterwards is empty, not the one entry of the call. -/
theorem fresh_account_update_counterexample :
    (UpdateBalance true true 7 emptyTable 42 "5").1 = GoResult.panic ∧
      (UpdateBalance true true 7 emptyTable 42 "5").2 42 = none ∧
      GetTxHist true (UpdateBalance true true 7 emptyTable 42 "5").2 42 10 = ([], none) := by
  rw [UpdateBalance_absent true true 7 emptyTable 42 "5" rfl]
  exact ⟨rfl, rfl, rfl⟩

/-- C3, amended: for a chat without an item, no call of a sequence of
`UpdateBalance` calls returns a value with a nil error, and the table is left
as it was, so no account is created and `GetTxHist` stays empty; the item
comes into being by a served `ResetBalance`, with the given balance and an
empty history. -/
theorem update_on_absent_account (db : Table) (key : Int) (calls : List Call)
    (h : db key = none) :
    (runCalls db key calls).2 = db ∧
      (∀ r ∈ (runCalls db key calls).1, ∀ s : String, r ≠ GoResult.ret (s, none)) ∧
      (∀ count : Int, GetTxHist true (runCalls db key calls).2 key count = ([], none)) ∧
      (∀ (v : String) (q : ℚ), parseNumber v = some q →
        (ResetBalance true db key v).2 key = some (Row.mk q [])) := by
  obtain ⟨h1, h2⟩ := runCalls_absent key calls db h
  refine ⟨h1, ?_, ?_, ?_⟩
  · intro r hr s hs
    rw [h2 r hr] at hs
    cases hs
  · intro count
    simp [h1, GetTxHist, getItem, h]
  · intro v q hq
    simp [ResetBalance_ok db key v q hq]

/-- Witness of C3 as amended: two calls for chat 42 on the empty table. -/
theorem update_on_absent_account_witness :
    (runCalls emptyTable 42 [Call.mk "5" 7 true true, Call.mk "1.5" 8 true true]).2 =
        emptyTable ∧
      (∀ r ∈ (runCalls emptyTable 42 [Call.mk "5" 7 true true, Call.mk "1.5" 8 true true]).1,
        ∀ s : String, r ≠ GoResult.ret (s, none)) ∧
      (∀ count : Int, GetTxHist true
        (runCalls emptyTable 42 [Call.mk "5" 7 true true, Call.mk "1.5" 8 true true]).2 42 count =
          ([], none)) ∧
      (∀ (v : String) (q : ℚ), parseNumber v = some q →
        (ResetBalance true emptyTable 42 v).2 42 = some (Row.mk q [])) :=
  update_on_absent_account emptyTable 42 [Call.mk "5" 7 true true, Call.mk "1.5" 8 true true] rfl

/-- C4 on the code: for a chat without an item a served `GetBalance` returns
the empty string (the zero value of `Account.Balance`) with a nil error, not
the string `0`; a served `GetTxHist` returns no entries and a nil error for
every count. -/
theorem read_absent_account (db : Table) (key : Int) (h : db key = none) :
    GetBalance true db key = ("", none) ∧ (GetBalance true db key).1 ≠ "0" ∧
      ∀ count : Int, GetTxHist true db key count = ([], none) := by
  have hb : GetBalance true db key = ("", none) := by
    simp [GetBalance, getItem, h, unmarshalAccount]
  refine ⟨hb, ?_, ?_⟩
  · rw [hb]
    decide
  · intro count
    simp [GetTxHist, getItem, h]

/-- Witness of C4 on the code: chat 42 on the empty table. -/
theorem read_absent_account_witness :
    GetBalance true emptyTable 42 = ("", none) ∧ (GetBalance true emptyTable 42).1 ≠ "0" ∧
      ∀ count : Int, GetTxHist true emptyTable 42 count = ([], none) :=
  read_absent_account emptyTable 42 rfl

/-- C6 on the code: whenever the first request of `UpdateBalance` returns an
error, the call panics (line 89 dereferences the nil response before line 90
tests the error) instead of returning the error; the table is left as it
was. -/
theorem failed_addition_panics (addUp trimUp : Bool) (now : Int) (db : Table) (key : Int)
    (amount : String) (h : (sendAdd addUp db key amount (Entry.mk now amount)).1.2 ≠ none) :
    (UpdateBalance addUp trimUp now db key amount).1 = GoResult.panic ∧
      (∀ e : StoreError, (UpdateBalance addUp trimUp now db key amount).1 ≠ GoResult.ret ("", some e)) ∧
      (UpdateBalance addUp trimUp now db key amount).2 = db := by
  rw [UpdateBalance_of_error addUp trimUp now db key amount h]
  refine ⟨rfl, ?_, rfl⟩
  intro e he
  cases he

/-- Witness of C6 on the code: the amount `abc` on an existing account. -/
theorem failed_addition_panics_witness :
    (UpdateBalance true true 7 (tableWith 42 (rowOfLength 2)) 42 "abc").1 = GoResult.panic ∧
      (∀ e : StoreError, (UpdateBalance true true 7 (tableWith 42 (rowOfLength 2)) 42 "abc").1 ≠
        GoResult.ret ("", some e)) ∧
      (UpdateBalance true true 7 (tableWith 42 (rowOfLength 2)) 42 "abc").2 =
        tableWith 42 (rowOfLength 2) :=
  failed_addition_panics true true 7 (tableWith 42 (rowOfLength 2)) 42 "abc" (by
    have hp : parseNumber "abc" = none := by decide
    simp [sendAdd, tableWith, hp])

/-- C9 on the code: the result of `GetTxHist` does not depend on `count`; on
an account with three entries `GetTxHist(42, 1)` returns all three. -/
theorem history_ignores_count :
    (∀ (up : Bool) (db : Table) (key : Int) (c1 c2 : Int),
        GetTxHist up db key c1 = GetTxHist up db key c2) ∧
      (GetTxHist true (tableWith 42 (rowOfLength 3)) 42 1).1.length = 3 ∧
      (GetTxHist true (tableWith 42 (rowOfLength 3)) 42 1).2 = none := by
  refine ⟨fun _ _ _ _ _ => rfl, ?_, ?_⟩ <;>
    simp [GetTxHist, getItem, tableWith, rowOfLength]

/-! ## The router -/

theorem beforeFirst_self (c : Char) (s : String) (h : ∀ x ∈ s.data, x ≠ c) :
    beforeFirst c s = s := by
  unfold beforeFirst
  have h1 : s.data.takeWhile (fun x => x != c) = s.data := by
    rw [List.takeWhile_eq_self_iff]
    intro x hx
    simpa using h x hx
  rw [h1]

theorem add_data (tok : String) :
    ("/add " ++ tok).data = '/' :: 'a' :: 'd' :: 'd' :: ' ' :: tok.data := by
  simp [String.data_append]

theorem updateAndReport_log (env : Env) (w : World) (chatID : Int) (amount : String)
    (report : String → String) :
    (updateAndReport env w chatID amount report).2.calls =
        w.calls ++ [LedgerCall.updateBalance chatID amount] ∧
      ∃ rest, (updateAndReport env w chatID amount report).2.sent = w.sent ++ rest := by
  unfold updateAndReport
  rcases h : UpdateBalance env.addUp env.trimUp env.now w.db chatID amount with ⟨res, db1⟩
  cases res with
  | panic => exact ⟨by simp [h], [], by simp [h]⟩
  | ret v =>
    rcases v with ⟨newBal, err⟩
    cases err with
    | some e => exact ⟨by simp [h], [], by simp [h]⟩
    | none =>
      cases hs : env.sendUp
      · exact ⟨by simp [h, SendMsg, hs], [Outgoing.text chatID (report newBal)],
          by simp [h, SendMsg, hs]⟩
      · exact ⟨by simp [h, SendMsg, hs], [Outgoing.text chatID (report newBal)],
          by simp [h, SendMsg, hs]⟩

/-- C8 on the code: for every message `/add tok` whose token `tok` is not
empty, holds no space and is rejected by `strconv.ParseFloat`, the handler
sends the request to try again and then still calls `UpdateBalance` with
`tok` (the branch at lines 145-150 does not return).  A reply whose token is
empty or rejected, and that is not `cancel`, is turned down without a call
into the ledger. -/
theorem add_command_skips_validation (env : Env) (w : World) (chatID mid : Int) (tok : String)
    (hne : tok.data ≠ []) (hsp : ∀ x ∈ tok.data, x ≠ ' ')
    (hpf : parseFloat32Ok tok = false) (hsend : env.sendUp = true) :
    ((handleTelegramMsg env w
        (Update.mk none (some (Message.mk chatID mid ("/add " ++ tok) false)))).2.calls =
          w.calls ++ [LedgerCall.updateBalance chatID tok] ∧
      ∃ rest, (handleTelegramMsg env w
        (Update.mk none (some (Message.mk chatID mid ("/add " ++ tok) false)))).2.sent =
          w.sent ++ Outgoing.text chatID "Don't understand, please try again." :: rest) ∧
      ∀ text : String, (trimSpace text).data.map lowerAscii ≠ "cancel".data →
        ((beforeFirst ' ' text).length = 0 ∨ parseFloat32Ok (beforeFirst ' ' text) = false) →
        (handleTelegramMsg env w
          (Update.mk none (some (Message.mk chatID mid text true)))).2.calls = w.calls ∧
        (handleTelegramMsg env w
          (Update.mk none (some (Message.mk chatID mid text true)))).1 = Exit.returned := by
  constructor
  · have hany : ("/add " ++ tok).data.any (fun c => c == ' ') = true := by
      rw [add_data]
      simp [List.any_cons]
    have hcmd : beforeFirst ' ' ("/add " ++ tok) = "/add" := by
      unfold beforeFirst
      rw [add_data]
      rfl
    have hargs : afterFirst ' ' ("/add " ++ tok) = tok := by
      unfold afterFirst
      rw [add_data]
      rfl
    have hat : beforeFirst '@' "/add" = "/add" := by decide
    have hlen : (tok.length == 0) = false := by
      rw [beq_eq_false_iff_ne]
      intro h0
      apply hne
      cases tok with
      | mk d => exact List.length_eq_zero.mp h0
    have htok : beforeFirst ' ' tok = tok := beforeFirst_self ' ' tok hsp
    obtain ⟨hc, rest, hr⟩ := updateAndReport_log env
      { w with sent := w.sent ++ [Outgoing.text chatID "Don't understand, please try again."] }
      chatID tok (fun newBal => "Balance updated. New balance " ++ newBal)
    simp only [handleTelegramMsg, handleCommand, hany, hcmd, hargs, hat, htok, if_true,
      SendMsg, hsend, hpf, Bool.not_false, beq_self_eq_true, hlen, Bool.false_eq_true,
      if_false]
    rcases hu : updateAndReport env
      { w with sent := w.sent ++ [Outgoing.text chatID "Don't understand, please try again."] }
      chatID tok (fun newBal => "Balance updated. New balance " ++ newBal) with ⟨e, w2⟩
    rw [hu] at hc hr
    cases e with
    | none => exact ⟨hc, rest, by simpa using hr⟩
    | some e1 => exact ⟨hc, rest, by simpa using hr⟩
  · intro text hcancel hbad
    have hb : ((beforeFirst ' ' text).length == 0 || !parseFloat32Ok (beforeFirst ' ' text)) =
        true := by
      rcases hbad with h | h
      · simp [h]
      · simp [h]
    simp only [handleTelegramMsg, if_true]
    rw [if_neg (by simp [hcancel])]
    simp [hb]

/-- Witness of C8 on the code: the message `/add abc` in chat 42. -/
theorem add_command_skips_validation_witness :
    ((handleTelegramMsg sampleEnv sampleWorld
        (Update.mk none (some (Message.mk 42 1 ("/add " ++ "abc") false)))).2.calls =
          sampleWorld.calls ++ [LedgerCall.updateBalance 42 "abc"] ∧
      ∃ rest, (handleTelegramMsg sampleEnv sampleWorld
        (Update.mk none (some (Message.mk 42 1 ("/add " ++ "abc") false)))).2.sent =
          sampleWorld.sent ++ Outgoing.text 42 "Don't understand, please try again." :: rest) ∧
      ∀ text : String, (trimSpace text).data.map lowerAscii ≠ "cancel".data →
        ((beforeFirst ' ' text).length = 0 ∨ parseFloat32Ok (beforeFirst ' ' text) = false) →
        (handleTelegramMsg sampleEnv sampleWorld
          (Update.mk none (some (Message.mk 42 1 text true)))).2.calls = sampleWorld.calls ∧
        (handleTelegramMsg sampleEnv sampleWorld
          (Update.mk none (some (Message.mk 42 1 text true)))).1 = Exit.returned :=
  add_command_skips_validation sampleEnv sampleWorld 42 1 "abc" (by decide) (by decide)
    (by decide) rfl

/-! ## Reversal -/

/-- For an amount that the table reads as the number `q` and that does not
begin with `+`, `negate` returns a string that the table reads as `-q`. -/
theorem negate_value (a : String) (q : ℚ) (hq : parseNumber a = some q)
    (hplus : a.data.head? ≠ some '+') :
    ∃ b, negate a = GoResult.ret b ∧ parseNumber b = some (-q) := by
  cases a with
  | mk d =>
    cases d with
    | nil => simp [parseNumber, parseDecimal, parseUnsigned] at hq
    | cons c cs =>
      by_cases hc : c = '-'
      · subst hc
        rw [parseNumber_minus] at hq
        cases hu : parseUnsigned cs with
        | none => simp [hu] at hq
        | some p =>
          simp only [hu, Option.map_some', Option.some.injEq] at hq
          refine ⟨String.mk cs, by simp [negate], ?_⟩
          rw [parseNumber_unsigned cs p hu, ← hq]
          simp
      · have hc2 : c ≠ '+' := by
          intro h
          apply hplus
          simp [h]
        have hu : ∃ p, parseUnsigned (c :: cs) = some p ∧ q = decValue ((p.1 : Int), p.2) := by
          unfold parseNumber parseDecimal at hq
          split at hq
          · rename_i heq
            simp at heq
            exact absurd heq.1 hc
          · rename_i heq
            simp at heq
            exact absurd heq.1 hc2
          · cases hp : parseUnsigned (c :: cs) with
            | none => simp [hp] at hq
            | some p => exact ⟨p, rfl, by simpa [hp] using hq.symm⟩
        obtain ⟨p, hp, hqp⟩ := hu
        refine ⟨"-" ++ String.mk (c :: cs), by simp [negate, hc], ?_⟩
        have hd : "-" ++ String.mk (c :: cs) = String.mk ('-' :: c :: cs) := rfl
        rw [hd, parseNumber_minus, hp, hqp]
        simp

/-- Reversal on amounts without a leading `+`: on an existing account,
`UpdateBalance(key, a)` followed by `UpdateBalance(key, negate(a))`, both
additions served, brings the balance back to its prior value, and the history
has gained both entries (less what the trims removed). -/
theorem reversal_restores_balance (db : Table) (key : Int) (r : Row) (a : String) (q : ℚ)
    (t1 t2 : Bool) (now1 now2 : Int) (hr : db key = some r) (hq : parseNumber a = some q)
    (hplus : a.data.head? ≠ some '+') :
    ∃ b, negate a = GoResult.ret b ∧
      (UpdateBalance true t2 now2 (UpdateBalance true t1 now1 db key a).2 key b).2 key =
        some (Row.mk r.Balance
          (histAfterTrim t2 (histAfterTrim t1 (r.Hist ++ [Entry.mk now1 a]) ++
            [Entry.mk now2 b]))) := by
  obtain ⟨b, hb, hqb⟩ := negate_value a q hq hplus
  refine ⟨b, hb, ?_⟩
  rw [UpdateBalance_ok t1 now1 db key a r q hr hq]
  rw [UpdateBalance_ok t2 now2 _ key b
    (Row.mk (r.Balance + q) (histAfterTrim t1 (r.Hist ++ [Entry.mk now1 a]))) (-q)
    (by simp) hqb]
  simp

theorem parseNumber_minus_plus (cs : List Char) :
    parseNumber (String.mk ('-' :: '+' :: cs)) = none := by
  rw [parseNumber_minus]
  cases h : parseUnsigned ('+' :: cs) with
  | none => rfl
  | some p => exact absurd rfl (parseUnsigned_head '+' cs p h).2

/-- C5 on the code: for every amount with a leading `+`, `negate` puts a `-`
in front, and the table reads no number in the result.  The router accepts
`+5` and rejects `-+5`; after `UpdateBalance(42, "+5")` on a balance of 10 the
call `UpdateBalance(42, negate("+5"))` panics, the balance stays at 15 and
the history holds the first entry only. -/
theorem negate_plus_counterexample :
    (∀ cs : List Char,
        negate (String.mk ('+' :: cs)) = GoResult.ret (String.mk ('-' :: '+' :: cs)) ∧
          parseNumber (String.mk ('-' :: '+' :: cs)) = none) ∧
      parseFloat32Ok "+5" = true ∧ negate "+5" = GoResult.ret "-+5" ∧
      parseFloat32Ok "-+5" = false ∧ parseNumber "-+5" = none ∧
      (UpdateBalance true true 8
        (UpdateBalance true true 7 (tableWith 42 (Row.mk 10 [])) 42 "+5").2 42 "-+5").1 =
          GoResult.panic ∧
      (UpdateBalance true true 8
        (UpdateBalance true true 7 (tableWith 42 (Row.mk 10 [])) 42 "+5").2 42 "-+5").2 42 =
          some (Row.mk 15 [Entry.mk 7 "+5"]) := by
  have hp : parseNumber "+5" = some 5 := by
    simp [parseNumber, parseDecimal, parseUnsigned, digitsVal, digitVal, decValue]
  have hn : parseNumber "-+5" = none := by decide
  have h1 := UpdateBalance_ok true 7 (tableWith 42 (Row.mk 10 [])) 42 "+5" (Row.mk 10 []) 5
    (by simp [tableWith]) hp
  refine ⟨fun cs => ⟨rfl, parseNumber_minus_plus cs⟩, by decide, by decide, by decide, hn,
    ?_, ?_⟩
  · rw [UpdateBalance_of_error]
    rw [h1]
    simp [sendAdd, hn]
  · rw [UpdateBalance_of_error]
    · rw [h1]
      simp [histAfterTrim]
      norm_num
    · rw [h1]
      simp [sendAdd, hn]

/-! ## Interleaved requests -/

theorem execReq_row (key : Int) (db : Table) (r : Row) (q : Req) (hr : db key = some r)
    (hq : q.wellFormed = true) :
    ∃ h, execReq key db q key = some (Row.mk (r.Balance + q.value) h) := by
  cases q with
  | add amount now =>
    obtain ⟨a, ha⟩ := Option.isSome_iff_exists.mp hq
    have hval : numVal amount = a := by simp [numVal, ha]
    refine ⟨r.Hist ++ [Entry.mk now amount], ?_⟩
    simp [execReq, sendAdd_ok db key amount (Entry.mk now amount) r a hr ha, Req.value, hval]
  | trim up =>
    refine ⟨histAfterTrim up r.Hist, ?_⟩
    simp [execReq, sendTrim_table up db key r hr, Req.value]

theorem foldl_execReq_balance (key : Int) (s : List Req) :
    ∀ (db : Table) (r : Row), db key = some r → (∀ q ∈ s, q.wellFormed = true) →
      ∃ h, s.foldl (execReq key) db key = some (Row.mk (r.Balance + (s.map Req.value).sum) h) := by
  induction s with
  | nil =>
    intro db r hr _
    exact ⟨r.Hist, by simp [hr]⟩
  | cons q qs ih =>
    intro db r hr hq
    obtain ⟨h1, e1⟩ := execReq_row key db r q hr (hq q (List.mem_cons_self _ _))
    obtain ⟨h2, e2⟩ := ih (execReq key db q) (Row.mk (r.Balance + q.value) h1) e1
      (fun q1 hq1 => hq q1 (List.mem_cons_of_mem _ hq1))
    refine ⟨h2, ?_⟩
    simp only [List.foldl_cons, List.map_cons, List.sum_cons]
    rw [e2]
    simp [add_assoc]

theorem interleavings_perm (xs : List Req) :
    ∀ (ys s : List Req), s ∈ interleavings xs ys → s.Perm (xs ++ ys) := by
  induction xs with
  | nil =>
    intro ys s hs
    simp [interleavings] at hs
    subst hs
    simp
  | cons x xs ihx =>
    intro ys
    induction ys with
    | nil =>
      intro s hs
      simp [interleavings] at hs
      subst hs
      simp
    | cons y ys ihy =>
      intro s hs
      simp only [interleavings, List.mem_append, List.mem_map] at hs
      rcases hs with ⟨t, ht, rfl⟩ | ⟨t, ht, rfl⟩
      · exact List.Perm.cons x (ihx (y :: ys) t ht)
      · have h1 := ihy t ht
        exact (List.Perm.cons y h1).trans (List.perm_middle.symm)

theorem UpdateBalance_requests (c : Call) (db : Table) (key : Int) (r : Row)
    (hr : db key = some r) (hc : c.addUp = true ∧ (parseNumber c.amount).isSome = true) :
    (UpdateBalance c.addUp c.trimUp c.now db key c.amount).2 =
      c.requests.foldl (execReq key) db := by
  obtain ⟨hup, hnum⟩ := hc
  obtain ⟨a, ha⟩ := Option.isSome_iff_exists.mp hnum
  rw [hup, UpdateBalance_ok c.trimUp c.now db key c.amount r a hr ha]
  simp only [Call.requests, List.foldl_cons, List.foldl_nil, execReq]
  rw [sendAdd_ok db key c.amount (Entry.mk c.now c.amount) r a hr ha]
  rw [sendTrim_table c.trimUp _ key
    (Row.mk (r.Balance + a) (r.Hist ++ [Entry.mk c.now c.amount])) (by simp)]
  simp

/-- C7: for an existing account with balance `b0` and two calls
`UpdateBalance(key, a)` and `UpdateBalance(key, b)` with decimal amounts
whose additions are served, each call being its atomic addition request
followed by its atomic conditional trim request (served or not), after every
interleaving of the four requests `GetBalance(key)` returns `b0 + a + b`. -/
theorem concurrent_updates_keep_both (db : Table) (key : Int) (r : Row) (ca cb : Call)
    (hr : db key = some r)
    (ha : ca.addUp = true ∧ (parseNumber ca.amount).isSome = true)
    (hb : cb.addUp = true ∧ (parseNumber cb.amount).isSome = true) :
    (∀ (c : Call) (db1 : Table) (r1 : Row), (c = ca ∨ c = cb) → db1 key = some r1 →
        (UpdateBalance c.addUp c.trimUp c.now db1 key c.amount).2 =
          c.requests.foldl (execReq key) db1) ∧
      (interleavings ca.requests cb.requests).length = 6 ∧
      ∀ s ∈ interleavings ca.requests cb.requests,
        GetBalance true (s.foldl (execReq key) db) key =
          (renderNumber (r.Balance + numVal ca.amount + numVal cb.amount), none) := by
  refine ⟨?_, ?_, ?_⟩
  · intro c db1 r1 hc h1
    rcases hc with rfl | rfl
    · exact UpdateBalance_requests c db1 key r1 h1 ha
    · exact UpdateBalance_requests c db1 key r1 h1 hb
  · simp [interleavings, Call.requests]
  · intro s hs
    have hperm := interleavings_perm _ _ s hs
    have hwf : ∀ q ∈ s, q.wellFormed = true := by
      intro q hq
      have hq1 : q ∈ ca.requests ++ cb.requests := hperm.subset hq
      simp only [Call.requests, List.cons_append, List.nil_append, List.mem_cons,
        List.mem_singleton, List.not_mem_nil, or_false] at hq1
      rcases hq1 with rfl | rfl | rfl | rfl
      · exact ha.2
      · rfl
      · exact hb.2
      · rfl
    obtain ⟨h, e⟩ := foldl_execReq_balance key s db r hr hwf
    have hsum : (s.map Req.value).sum = numVal ca.amount + numVal cb.amount := by
      rw [(hperm.map Req.value).sum_eq]
      simp [Call.requests, Req.value]
    simp [GetBalance, getItem, e, unmarshalAccount, hsum, add_assoc]

/-- Witness of C7: amounts `2.5` and `-1` on an account with balance 10 and a
full history, one trim request served and one not. -/
theorem concurrent_updates_keep_both_witness :
    (∀ (c : Call) (db1 : Table) (r1 : Row),
        (c = Call.mk "2.5" 7 true true ∨ c = Call.mk "-1" 7 true false) → db1 42 = some r1 →
        (UpdateBalance c.addUp c.trimUp c.now db1 42 c.amount).2 =
          c.requests.foldl (execReq 42) db1) ∧
      (interleavings (Call.mk "2.5" 7 true true).requests
        (Call.mk "-1" 7 true false).requests).length = 6 ∧
      ∀ s ∈ interleavings (Call.mk "2.5" 7 true true).requests
          (Call.mk "-1" 7 true false).requests,
        GetBalance true (s.foldl (execReq 42) (tableWith 42 (rowOfLength 10))) 42 =
          (renderNumber ((rowOfLength 10).Balance + numVal (Call.mk "2.5" 7 true true).amount +
            numVal (Call.mk "-1" 7 true false).amount), none) :=
  concurrent_updates_keep_both (tableWith 42 (rowOfLength 10)) 42 (rowOfLength 10)
    (Call.mk "2.5" 7 true true) (Call.mk "-1" 7 true false) (by simp [tableWith])
    ⟨rfl, by decide⟩ ⟨rfl, by decide⟩

end BeanCounter
